import Mathlib

/-!
# Verification of the streaming AGC engine of rtl_sdr.c

Shallow embedding of the automatic gain control subsystem of src/rtl_sdr.c:
the power lookup table (dbfs_lut_init), the window peak estimator inside
rtlsdr_callback, the gain error accumulator (update_gain_pid together with
the threshold logic of set_new_gain_thread), and the gain actuator thread
(set_new_gain_thread), plus the AGC start-up path of main.

Machine integers of the C source are modelled as unbounded integers: every
quantity involved (scores near -1000, accumulator sums, gain indices,
sample counters bounded by the sample rate) stays far from the 32-bit
range in all statements proved here.  The single-precision logf of the
source is modelled as the exact real natural logarithm, and the C
float-to-int conversion as truncation toward zero.
-/

/-- DBFS_MIN, the sentinel score stored for a zero-magnitude pair. -/
def DBFS_MIN : ℤ := -480

/-- C float-to-int conversion: truncation toward zero. -/
noncomputable def ctrunc (x : ℝ) : ℤ := if 0 ≤ x then ⌊x⌋ else ⌈x⌉

/-- The centered magnitude computed inside the loop of dbfs_lut_init:
centered_i = i - 158, centered_q = q - 128,
mag = centered_i * centered_i + centered_q * centered_q. -/
def dbfs_mag (i q : ℕ) : ℤ :=
  ((i : ℤ) - 158) * ((i : ℤ) - 158) + ((q : ℤ) - 128) * ((q : ℤ) - 128)

/-- One entry of the table built by dbfs_lut_init: dbfs = DBFS_MIN when
mag is not positive, otherwise 100 * logf(mag / 16384.0) converted to int.
The logf call is modelled as the exact real logarithm and the float-to-int
assignment as truncation toward zero. -/
noncomputable def dbfs_entry (i q : ℕ) : ℤ :=
  if 0 < dbfs_mag i q then
    ctrunc (100 * Real.log ((dbfs_mag i q : ℝ) / 16384))
  else DBFS_MIN

/-- The table entry as the specification document words it: sentinel at
zero magnitude, otherwise round(100 * ln(m / 16384.0)).  Kept separate so
it can be compared against the entry the source computes. -/
noncomputable def dbfs_entry_spec (i q : ℕ) : ℤ :=
  if dbfs_mag i q = 0 then DBFS_MIN
  else round ((100 : ℝ) * Real.log ((dbfs_mag i q : ℝ) / 16384))

/-- The peak fold of rtlsdr_callback: if(level > max_dbfs) max_dbfs = level. -/
def max_update (level max_dbfs : ℤ) : ℤ :=
  if level > max_dbfs then level else max_dbfs

/-- update_gain_pid: pid_somme += delta. -/
def update_gain_pid (pid_somme delta : ℤ) : ℤ := pid_somme + delta

/-- The mutable globals of the estimator: sample_index, max_dbfs and
pid_somme.  They persist across calls of rtlsdr_callback. -/
structure AgcState where
  sample_index : ℤ
  max_dbfs : ℤ
  pid_somme : ℤ
  deriving DecidableEq, Repr

/-- One pass of the while(n--) loop of rtlsdr_callback.  The pointer p is
initialized to buf at the top of every pass in the source, so each pass
reads the first pair buf[0], buf[1] of the block.  The second component
lists the peak observations emitted during the pass (the value of
max_dbfs at emission time). -/
def agc_iter (lut : ℕ → ℕ → ℤ) (target_dbfs max_samples : ℤ) (buf : List ℕ)
    (s : AgcState) : AgcState × List ℤ :=
  let s1obs :=
    if 0 < s.sample_index then
      ({ s with sample_index := s.sample_index - 1 }, ([] : List ℤ))
    else
      ({ sample_index := max_samples - 1,
         max_dbfs := DBFS_MIN,
         pid_somme := update_gain_pid s.pid_somme (target_dbfs - s.max_dbfs) },
       [s.max_dbfs])
  let i := buf.headD 0
  let q := buf.tail.headD 0
  ({ s1obs.1 with max_dbfs := max_update (lut i q) s1obs.1.max_dbfs }, s1obs.2)

/-- The while(n--) loop of rtlsdr_callback, n passes over the block buf. -/
def agc_loop (lut : ℕ → ℕ → ℤ) (target_dbfs max_samples : ℤ) (buf : List ℕ) :
    ℕ → AgcState → AgcState × List ℤ
  | 0, s => (s, [])
  | n + 1, s =>
    let r1 := agc_iter lut target_dbfs max_samples buf s
    let r2 := agc_loop lut target_dbfs max_samples buf n r1.1
    (r2.1, r1.2 ++ r2.2)

/-- The AGC part of rtlsdr_callback: when target_dbfs < 0, run the
estimator loop n = len / 2 times over the block. -/
def agc_process (lut : ℕ → ℕ → ℤ) (target_dbfs max_samples : ℤ)
    (buf : List ℕ) (s : AgcState) : AgcState × List ℤ :=
  if target_dbfs < 0 then
    agc_loop lut target_dbfs max_samples buf (buf.length / 2) s
  else (s, [])

/-- A block of k identical I/Q pairs (i, q), interleaved as in the stream. -/
def pairBuf (i q : ℕ) : ℕ → List ℕ
  | 0 => []
  | k + 1 => i :: q :: pairBuf i q k

/-- The threshold logic of set_new_gain_thread acting on pid_somme:
two successive if statements, each moving the accumulator back by the
threshold 300 and stepping the gain index by one.  Returns the new
pid_somme and the index step. -/
def gain_decision (pid_somme : ℤ) : ℤ × ℤ :=
  let r1 := if 300 < pid_somme then (pid_somme - 300, (1 : ℤ)) else (pid_somme, 0)
  if r1.1 < -300 then (r1.1 + 300, r1.2 - 1) else r1

/-- The index clamp of set_new_gain_thread:
if(new_gain_index < 1) new_gain_index = 1;
else if(new_gain_index > gain_count - 1) new_gain_index = gain_count - 1. -/
def clamp_gain_index (x gain_count : ℤ) : ℤ :=
  if x < 1 then 1 else if gain_count - 1 < x then gain_count - 1 else x

/-- One peak observation as the two threads together treat it: the
callback adds delta = target_dbfs - max_dbfs into pid_somme and signals,
the actuator wakes and runs the threshold logic once. -/
def on_peak (target_dbfs pid_somme peak : ℤ) : ℤ × ℤ :=
  gain_decision (update_gain_pid pid_somme (target_dbfs - peak))

/-- Feed a list of peak observations through on_peak, collecting the
index step decided after each observation (0 when no step is emitted). -/
def run_peaks (target_dbfs : ℤ) : List ℤ → ℤ → ℤ × List ℤ
  | [], pid_somme => (pid_somme, [])
  | p :: ps, pid_somme =>
    let r1 := on_peak target_dbfs pid_somme p
    let r2 := run_peaks target_dbfs ps r1.1
    (r2.1, r1.2 :: r2.2)

/-- The state owned by the gain actuator thread. -/
structure ActuatorState where
  gain_index : ℤ
  pid_somme : ℤ
  current_gain : ℤ
  deriving DecidableEq, Repr

/-- One pass of the do/while body of set_new_gain_thread.  sel is the
value returned by select; hw_ok is the outcome of the external
verbose_gain_set call, which the source never examines.  The second
component lists the hardware gain-set calls issued during the pass,
with their outcomes. -/
def actuator_iteration (gains : ℤ → ℤ) (gain_count sel : ℤ) (hw_ok : Bool)
    (s : ActuatorState) : ActuatorState × List (ℤ × Bool) :=
  if 0 < sel then
    let d := gain_decision s.pid_somme
    let new_gain_index := clamp_gain_index (s.gain_index + d.2) gain_count
    if new_gain_index ≠ s.gain_index then
      ({ gain_index := new_gain_index, pid_somme := d.1,
         current_gain := gains new_gain_index },
       [(gains new_gain_index, hw_ok)])
    else ({ s with pid_somme := d.1 }, [])
  else (s, [])

/-- Whether pass n of the do/while loop of set_new_gain_thread runs.
do_exit_obs k is the value of do_exit observed by the while check at the
end of pass k: pass 0 always runs (do/while), and pass n+1 runs exactly
when pass n ran and its end-of-pass check saw do_exit still clear. -/
def actuator_runs (do_exit_obs : ℕ → Bool) : ℕ → Bool
  | 0 => true
  | n + 1 => actuator_runs do_exit_obs n && !(do_exit_obs n)

/-- The three gain modes selected by the sign of the -g argument in main. -/
inductive GainMode
  | auto_gain
  | manual_gain
  | agc
  deriving DecidableEq, Repr

/-- The gain mode main selects: 0 means hardware auto gain, positive
means manual gain, negative engages the AGC subsystem. -/
def select_gain_mode (gain : ℤ) : GainMode :=
  if gain = 0 then GainMode.auto_gain
  else if 0 < gain then GainMode.manual_gain
  else GainMode.agc

/-- The state established by the AGC branch of main: initialize_gains
sets gain_index = gain_count / 2, then current_gain = gains[gain_index]
is written to hardware once, target_dbfs = gain,
max_samples = samp_rate / MAX_HZ and sample_index = max_samples. -/
structure AgcSetup where
  gain_index : ℤ
  current_gain : ℤ
  target_dbfs : ℤ
  max_samples : ℤ
  sample_index : ℤ
  hw_calls : List ℤ
  deriving DecidableEq, Repr

/-- The AGC branch of main (gain < 0), lines 368-379 of the source. -/
def agc_mode_setup (gains : ℤ → ℤ) (gain_count gain samp_rate : ℤ) : AgcSetup :=
  let gain_index := gain_count / 2
  let current_gain := gains gain_index
  { gain_index := gain_index
    current_gain := current_gain
    target_dbfs := gain
    max_samples := samp_rate / 5
    sample_index := samp_rate / 5
    hw_calls := [current_gain] }

/-! ## Helper lemmas about the estimator -/

theorem max_update_idem (v m : ℤ) : max_update v (max_update v m) = max_update v m := by
  unfold max_update
  split_ifs with h1 h2 <;> omega

theorem max_update_of_le (v m : ℤ) (h : m ≤ v) : max_update v m = v := by
  unfold max_update
  split_ifs with h1 <;> omega

theorem max_update_no_raise (l m : ℤ) (h : l ≤ m) : max_update l m = m := by
  unfold max_update
  split_ifs with h1 <;> omega

theorem pairBuf_length (i q : ℕ) : ∀ k : ℕ, (pairBuf i q k).length = 2 * k := by
  intro k
  induction k with
  | zero => rfl
  | succ k ih => simp [pairBuf, ih]; omega

theorem pairBuf_headD (i q k : ℕ) (h : 0 < k) : (pairBuf i q k).headD 0 = i := by
  cases k with
  | zero => omega
  | succ k => rfl

theorem pairBuf_tail_headD (i q k : ℕ) (h : 0 < k) :
    (pairBuf i q k).tail.headD 0 = q := by
  cases k with
  | zero => omega
  | succ k => rfl

theorem agc_iter_count (L : ℕ → ℕ → ℤ) (t ms : ℤ) (buf : List ℕ) (s : AgcState)
    (h : 0 < s.sample_index) :
    agc_iter L t ms buf s =
      (⟨s.sample_index - 1,
        max_update (L (buf.headD 0) (buf.tail.headD 0)) s.max_dbfs,
        s.pid_somme⟩, []) := by
  simp [agc_iter, h]

theorem agc_iter_emit (L : ℕ → ℕ → ℤ) (t ms : ℤ) (buf : List ℕ) (s : AgcState)
    (h : ¬ 0 < s.sample_index) :
    agc_iter L t ms buf s =
      (⟨ms - 1,
        max_update (L (buf.headD 0) (buf.tail.headD 0)) DBFS_MIN,
        s.pid_somme + (t - s.max_dbfs)⟩, [s.max_dbfs]) := by
  simp [agc_iter, update_gain_pid, h]

theorem agc_loop_succ (L : ℕ → ℕ → ℤ) (t ms : ℤ) (buf : List ℕ) (n : ℕ)
    (s : AgcState) :
    agc_loop L t ms buf (n + 1) s =
      ((agc_loop L t ms buf n (agc_iter L t ms buf s).1).1,
       (agc_iter L t ms buf s).2 ++
         (agc_loop L t ms buf n (agc_iter L t ms buf s).1).2) := rfl

theorem agc_loop_countdown (L : ℕ → ℕ → ℤ) (t ms : ℤ) (buf : List ℕ) :
    ∀ n : ℕ, ∀ s : AgcState, 0 < n → (n : ℤ) ≤ s.sample_index →
      agc_loop L t ms buf n s =
        (⟨s.sample_index - n,
          max_update (L (buf.headD 0) (buf.tail.headD 0)) s.max_dbfs,
          s.pid_somme⟩, []) := by
  intro n
  induction n with
  | zero => intro s h _; omega
  | succ n ih =>
    intro s _ hle
    have hpos : 0 < s.sample_index := by omega
    rcases Nat.eq_zero_or_pos n with hn | hn
    · subst hn
      rw [agc_loop_succ, agc_iter_count L t ms buf s hpos]
      dsimp only [agc_loop]
      simp only [List.append_nil, Prod.mk.injEq, AgcState.mk.injEq, and_true, true_and]
      push_cast
      ring
    · have hle1 : (n : ℤ) ≤ s.sample_index - 1 := by omega
      rw [agc_loop_succ, agc_iter_count L t ms buf s hpos]
      dsimp only
      rw [ih ⟨s.sample_index - 1,
        max_update (L (buf.headD 0) (buf.tail.headD 0)) s.max_dbfs, s.pid_somme⟩ hn hle1]
      simp only [List.nil_append, List.append_nil, Prod.mk.injEq, AgcState.mk.injEq,
        max_update_idem, and_true, true_and]
      push_cast
      ring

theorem agc_loop_append (L : ℕ → ℕ → ℤ) (t ms : ℤ) (buf : List ℕ) :
    ∀ a b : ℕ, ∀ s : AgcState,
      agc_loop L t ms buf (a + b) s =
        ((agc_loop L t ms buf b (agc_loop L t ms buf a s).1).1,
         (agc_loop L t ms buf a s).2 ++
           (agc_loop L t ms buf b (agc_loop L t ms buf a s).1).2) := by
  intro a
  induction a with
  | zero => intro b s; simp [agc_loop]
  | succ a ih =>
    intro b s
    have hca : a + 1 + b = (a + b) + 1 := by omega
    rw [hca]
    simp [agc_loop, ih, List.append_assoc]

/-- After one window worth of identical pairs, the counter is exhausted,
the running peak holds the score of the pair and nothing was emitted. -/
theorem agc_loop_full_window (L : ℕ → ℕ → ℤ) (t : ℤ) (i q ms : ℕ) (p0 : ℤ)
    (hms : 0 < ms) (hv : DBFS_MIN ≤ L i q) (buf : List ℕ)
    (hhd : buf.headD 0 = i) (htl : buf.tail.headD 0 = q) :
    agc_loop L t (ms : ℤ) buf ms ⟨(ms : ℤ), DBFS_MIN, p0⟩ =
      (⟨0, L i q, p0⟩, []) := by
  have hcount := agc_loop_countdown L t (ms : ℤ) buf ms
    ⟨(ms : ℤ), DBFS_MIN, p0⟩ hms (by simp)
  rw [hhd, htl, max_update_of_le _ _ hv] at hcount
  simpa using hcount

/-- Feeding one window worth of identical pairs plus the pair after it
emits exactly one observation, carrying the table score of the pair. -/
theorem agc_window_emits (L : ℕ → ℕ → ℤ) (t : ℤ) (i q ms : ℕ) (p0 : ℤ)
    (ht : t < 0) (hms : 0 < ms) (hv : DBFS_MIN ≤ L i q) :
    (agc_process L t ms (pairBuf i q (ms + 1)) ⟨(ms : ℤ), DBFS_MIN, p0⟩).2 =
      [L i q] := by
  have hn : (pairBuf i q (ms + 1)).length / 2 = ms + 1 := by
    rw [pairBuf_length]; omega
  have hhd := pairBuf_headD i q (ms + 1) (by omega)
  have htl := pairBuf_tail_headD i q (ms + 1) (by omega)
  have hfull := agc_loop_full_window L t i q ms p0 hms hv
    (pairBuf i q (ms + 1)) hhd htl
  have hemit := agc_iter_emit L t (ms : ℤ) (pairBuf i q (ms + 1))
    ⟨0, L i q, p0⟩ (by simp)
  rw [hhd, htl] at hemit
  unfold agc_process
  rw [if_pos ht, hn, agc_loop_append L t (ms : ℤ) (pairBuf i q (ms + 1)) ms 1, hfull]
  simp [agc_loop, hemit]


/-! ## Claim theorems: estimator -/

/-- C1 (code bug evaluation): inside one window, a block whose three
pairs score -200, -50 and -300 leaves the running peak at -200, the
score of the first pair, because the pair pointer p is re-initialized to
the start of the block on every pass of the loop; the specified peak of
-50 is never reached. -/
theorem c1_first_pair_only :
    (agc_process
      (fun i _ => if i = 0 then (-200 : ℤ) else if i = 1 then -50 else -300)
      (-250) 10 [0, 0, 1, 1, 2, 2] ⟨10, DBFS_MIN, 0⟩).1.max_dbfs = -200 ∧
    ((-200 : ℤ) ≠ -50) := by
  exact ⟨by decide, by decide⟩

/-- C2 (counterexample): feeding exactly window_length = 2 pairs, all at
a fixed power with table score -100, emits no observation at all, not
the single observation of score -100 the claim promises. -/
theorem c2_counterexample :
    (agc_process (fun _ _ => (-100 : ℤ)) (-250) 2 (pairBuf 0 0 2)
      ⟨2, DBFS_MIN, 0⟩).2 = [] ∧
    (agc_process (fun _ _ => (-100 : ℤ)) (-250) 2 (pairBuf 0 0 2)
      ⟨2, DBFS_MIN, 0⟩).2 ≠ [-100] := by
  exact ⟨by decide, by decide⟩

/-- C2 (amended): each pair consumes one unit of window budget, but the
observation is emitted only when a pair arrives with the budget already
exhausted: window_length pairs at a fixed power (table score at least
the sentinel) emit nothing, the next pair triggers exactly one
observation carrying that score, and a window split across two calls
behaves the same because the counter and peak persist in globals. -/
theorem c2_deferred_window (L : ℕ → ℕ → ℤ) (t : ℤ) (i q ms : ℕ) (p0 : ℤ)
    (ht : t < 0) (hms : 0 < ms) (hv : DBFS_MIN ≤ L i q) :
    (agc_process L t ms (pairBuf i q ms) ⟨(ms : ℤ), DBFS_MIN, p0⟩).2 = [] ∧
    (agc_process L t ms (pairBuf i q (ms + 1)) ⟨(ms : ℤ), DBFS_MIN, p0⟩).2 =
      [L i q] ∧
    (agc_process L t ms (pairBuf i q 1)
      (agc_process L t ms (pairBuf i q ms) ⟨(ms : ℤ), DBFS_MIN, p0⟩).1).2 =
      [L i q] := by
  have hn : (pairBuf i q ms).length / 2 = ms := by rw [pairBuf_length]; omega
  have hhd := pairBuf_headD i q ms hms
  have htl := pairBuf_tail_headD i q ms hms
  have hfull := agc_loop_full_window L t i q ms p0 hms hv (pairBuf i q ms) hhd htl
  have hfirst :
      agc_process L t ms (pairBuf i q ms) ⟨(ms : ℤ), DBFS_MIN, p0⟩ =
        (⟨0, L i q, p0⟩, []) := by
    unfold agc_process
    rw [if_pos ht, hn, hfull]
  refine ⟨by rw [hfirst], agc_window_emits L t i q ms p0 ht hms hv, ?_⟩
  rw [hfirst]
  have hemit := agc_iter_emit L t (ms : ℤ) (pairBuf i q 1) ⟨0, L i q, p0⟩ (by simp)
  rw [pairBuf_headD i q 1 (by omega), pairBuf_tail_headD i q 1 (by omega)] at hemit
  unfold agc_process
  rw [if_pos ht]
  have h1 : (pairBuf i q 1).length / 2 = 1 := by rw [pairBuf_length]
  rw [h1, agc_loop_succ]
  rw [hemit]
  simp [agc_loop]

/-- C2 witness. -/
theorem c2_deferred_window_witness :
    ((-250 : ℤ) < 0) ∧ (0 < 1) ∧ (DBFS_MIN ≤ (fun _ _ => (-100 : ℤ)) 0 0) ∧
    ((agc_process (fun _ _ => (-100 : ℤ)) (-250) 1 (pairBuf 0 0 1)
        ⟨(1 : ℕ), DBFS_MIN, 0⟩).2 = [] ∧
     (agc_process (fun _ _ => (-100 : ℤ)) (-250) 1 (pairBuf 0 0 2)
        ⟨(1 : ℕ), DBFS_MIN, 0⟩).2 = [(fun _ _ => (-100 : ℤ)) 0 0] ∧
     (agc_process (fun _ _ => (-100 : ℤ)) (-250) 1 (pairBuf 0 0 1)
        (agc_process (fun _ _ => (-100 : ℤ)) (-250) 1 (pairBuf 0 0 1)
          ⟨(1 : ℕ), DBFS_MIN, 0⟩).1).2 = [(fun _ _ => (-100 : ℤ)) 0 0]) :=
  ⟨by decide, by decide, by decide,
   c2_deferred_window (fun _ _ => (-100 : ℤ)) (-250) 0 0 1 0
     (by decide) (by decide) (by decide)⟩

/-- C9: the zero-magnitude pair (158, 128) maps to the sentinel minimum
and participates normally: the strict greater-than fold never lets a
sentinel-scored pair raise a running peak already at or above the
sentinel, and a window made only of such pairs emits the sentinel. -/
theorem c9_sentinel_pairs :
    dbfs_entry 158 128 = DBFS_MIN ∧
    (∀ m : ℤ, DBFS_MIN ≤ m → max_update DBFS_MIN m = m) ∧
    (∀ t : ℤ, ∀ ms : ℕ, ∀ p0 : ℤ, t < 0 → 0 < ms →
      (agc_process dbfs_entry t ms (pairBuf 158 128 (ms + 1))
        ⟨(ms : ℤ), DBFS_MIN, p0⟩).2 = [DBFS_MIN]) := by
  have hcenter : dbfs_entry 158 128 = DBFS_MIN := by
    unfold dbfs_entry dbfs_mag
    norm_num
  refine ⟨hcenter, fun m hm => max_update_no_raise DBFS_MIN m hm, ?_⟩
  intro t ms p0 ht hms
  have := agc_window_emits dbfs_entry t 158 128 ms p0 ht hms (by rw [hcenter])
  rwa [hcenter] at this

/-- C9 witness. -/
theorem c9_sentinel_pairs_witness :
    (DBFS_MIN ≤ (0 : ℤ)) ∧ ((-1 : ℤ) < 0) ∧ (0 < 1) ∧
    (max_update DBFS_MIN 0 = 0) ∧
    ((agc_process dbfs_entry (-1) 1 (pairBuf 158 128 2)
        ⟨(1 : ℕ), DBFS_MIN, 0⟩).2 = [DBFS_MIN]) :=
  ⟨by decide, by decide, by decide,
   c9_sentinel_pairs.2.1 0 (by decide),
   c9_sentinel_pairs.2.2 (-1) 1 0 (by decide) (by decide)⟩

/-! ## Helper lemmas about the accumulator and the actuator -/

/-- The two successive if statements of set_new_gain_thread behave as a
three-way case split: they can never both fire on the same wake. -/
theorem gain_decision_eq (pid_somme : ℤ) :
    gain_decision pid_somme =
      if 300 < pid_somme then (pid_somme - 300, 1)
      else if pid_somme < -300 then (pid_somme + 300, -1)
      else (pid_somme, 0) := by
  unfold gain_decision
  dsimp only
  split_ifs with h1 h2 h3 <;> simp_all <;> omega

theorem run_peaks_cons (t p pid_somme : ℤ) (ps : List ℤ) :
    run_peaks t (p :: ps) pid_somme =
      ((run_peaks t ps (on_peak t pid_somme p).1).1,
       (on_peak t pid_somme p).2 :: (run_peaks t ps (on_peak t pid_somme p).1).2) := rfl

theorem run_peaks_append (t : ℤ) :
    ∀ as bs : List ℤ, ∀ pid0 : ℤ,
      run_peaks t (as ++ bs) pid0 =
        ((run_peaks t bs (run_peaks t as pid0).1).1,
         (run_peaks t as pid0).2 ++ (run_peaks t bs (run_peaks t as pid0).1).2) := by
  intro as
  induction as with
  | nil => intro bs pid0; simp [run_peaks]
  | cons a as ih =>
    intro bs pid0
    simp [run_peaks_cons, ih]

/-- While every partial sum of the deltas stays inside the hysteresis
band, no step is decided and the accumulator is the plain sum. -/
theorem run_peaks_in_band (t : ℤ) :
    ∀ peaks : List ℤ, ∀ pid0 : ℤ,
      (∀ k : ℕ, -300 ≤ pid0 + ((peaks.map (fun p => t - p)).take k).sum ∧
        pid0 + ((peaks.map (fun p => t - p)).take k).sum ≤ 300) →
      run_peaks t peaks pid0 =
        (pid0 + (peaks.map (fun p => t - p)).sum, List.replicate peaks.length 0) := by
  intro peaks
  induction peaks with
  | nil => intro pid0 h; simp [run_peaks]
  | cons p ps ih =>
    intro pid0 h
    have h1 := h 1
    simp only [List.map_cons, List.take_succ_cons, List.take_zero, List.sum_cons,
      List.sum_nil, add_zero] at h1
    have hd : on_peak t pid0 p = (pid0 + (t - p), 0) := by
      unfold on_peak update_gain_pid
      rw [gain_decision_eq, if_neg (by omega), if_neg (by omega)]
    have hband : ∀ k : ℕ,
        -300 ≤ pid0 + (t - p) + ((ps.map (fun x => t - x)).take k).sum ∧
        pid0 + (t - p) + ((ps.map (fun x => t - x)).take k).sum ≤ 300 := by
      intro k
      have hk := h (k + 1)
      simp only [List.map_cons, List.take_succ_cons, List.sum_cons] at hk
      constructor <;> omega
    rw [run_peaks_cons, hd]
    dsimp only
    rw [ih (pid0 + (t - p)) hband]
    simp only [List.map_cons, List.sum_cons, List.length_cons, List.replicate_succ,
      Prod.mk.injEq]
    exact ⟨by ring, by trivial⟩

/-! ## Claim theorems: accumulator and actuator -/

/-- C4: every observation adds delta = target - peak into the
accumulator; a wake then subtracts the 300 threshold and decides an
increase when the accumulator exceeds it, adds it back and decides a
decrease when the accumulator is below -300, and decides nothing
otherwise.  Deltas whose partial sums stay inside the band decide no
step and leave the accumulator at the plain sum; a sequence whose sum
first passes the threshold at its last observation decides exactly one
increase and leaves the accumulator at sum - 300. -/
theorem c4_accumulator (t : ℤ) :
    (∀ pid_somme peak : ℤ,
      on_peak t pid_somme peak =
        if 300 < pid_somme + (t - peak) then (pid_somme + (t - peak) - 300, 1)
        else if pid_somme + (t - peak) < -300 then (pid_somme + (t - peak) + 300, -1)
        else (pid_somme + (t - peak), 0)) ∧
    (∀ peaks : List ℤ, ∀ pid0 : ℤ,
      (∀ k : ℕ, -300 ≤ pid0 + ((peaks.map (fun p => t - p)).take k).sum ∧
        pid0 + ((peaks.map (fun p => t - p)).take k).sum ≤ 300) →
      run_peaks t peaks pid0 =
        (pid0 + (peaks.map (fun p => t - p)).sum, List.replicate peaks.length 0)) ∧
    (∀ ps : List ℤ, ∀ p pid0 : ℤ,
      (∀ k : ℕ, -300 ≤ pid0 + ((ps.map (fun x => t - x)).take k).sum ∧
        pid0 + ((ps.map (fun x => t - x)).take k).sum ≤ 300) →
      300 < pid0 + (((ps ++ [p]).map (fun x => t - x)).sum) →
      run_peaks t (ps ++ [p]) pid0 =
        (pid0 + (((ps ++ [p]).map (fun x => t - x)).sum) - 300,
         List.replicate ps.length 0 ++ [1])) := by
  refine ⟨?_, run_peaks_in_band t, ?_⟩
  · intro pid_somme peak
    unfold on_peak update_gain_pid
    rw [gain_decision_eq]
  · intro ps p pid0 hband hcross
    have hsum : (((ps ++ [p]).map (fun x => t - x)).sum) =
        ((ps.map (fun x => t - x)).sum) + (t - p) := by
      simp
    rw [run_peaks_append t ps [p] pid0, run_peaks_in_band t ps pid0 hband]
    dsimp only
    have hlast : on_peak t (pid0 + ((ps.map (fun x => t - x)).sum)) p =
        (pid0 + ((ps.map (fun x => t - x)).sum) + (t - p) - 300, 1) := by
      unfold on_peak update_gain_pid
      rw [gain_decision_eq, if_pos (by omega)]
    rw [run_peaks_cons, hlast]
    dsimp only
    simp only [run_peaks, Prod.mk.injEq, hsum]
    exact ⟨by ring, by trivial⟩

/-- C4 witness: one in-band observation decides nothing; two
observations whose deltas sum to 400 decide exactly one increase and
leave the accumulator at 100. -/
theorem c4_accumulator_witness :
    (∀ k : ℕ, -300 ≤ (0 : ℤ) + (([( -100 : ℤ)].map (fun p => (0 : ℤ) - p)).take k).sum ∧
      (0 : ℤ) + (([( -100 : ℤ)].map (fun p => (0 : ℤ) - p)).take k).sum ≤ 300) ∧
    run_peaks 0 [-100] 0 =
      ((0 : ℤ) + (([( -100 : ℤ)].map (fun p => (0 : ℤ) - p)).sum),
       List.replicate 1 0) ∧
    run_peaks 0 [-200, -200] 0 =
      ((0 : ℤ) + ((([(-200 : ℤ)] ++ [(-200 : ℤ)]).map (fun x => (0 : ℤ) - x)).sum) - 300,
       List.replicate 1 0 ++ [1]) := by
  have hband1 : ∀ k : ℕ,
      -300 ≤ (0 : ℤ) + (([( -100 : ℤ)].map (fun p => (0 : ℤ) - p)).take k).sum ∧
      (0 : ℤ) + (([( -100 : ℤ)].map (fun p => (0 : ℤ) - p)).take k).sum ≤ 300 := by
    intro k
    cases k with
    | zero => constructor <;> decide
    | succ k => constructor <;> simp
  have hband2 : ∀ k : ℕ,
      -300 ≤ (0 : ℤ) + (([(-200 : ℤ)].map (fun x => (0 : ℤ) - x)).take k).sum ∧
      (0 : ℤ) + (([(-200 : ℤ)].map (fun x => (0 : ℤ) - x)).take k).sum ≤ 300 := by
    intro k
    cases k with
    | zero => constructor <;> decide
    | succ k => constructor <;> simp
  refine ⟨hband1, (c4_accumulator 0).2.1 [-100] 0 hband1, ?_⟩
  have h := (c4_accumulator 0).2.2 [-200] (-200) 0 hband2 (by simp)
  simpa using h

/-- C5: the actuator clamp equals clamp(current + step, 1, count - 1)
whenever the gain table has at least two entries, its result never goes
below 1, and from index 1 a decrease step stays at 1. -/
theorem c5_clamp (gain_count : ℤ) (hgc : 2 ≤ gain_count) :
    (∀ cur s : ℤ, clamp_gain_index (cur + s) gain_count =
      max 1 (min (cur + s) (gain_count - 1))) ∧
    (∀ x : ℤ, 1 ≤ clamp_gain_index x gain_count) ∧
    clamp_gain_index (1 + -1) gain_count = 1 := by
  refine ⟨fun cur s => ?_, fun x => ?_, ?_⟩ <;>
    unfold clamp_gain_index <;> split_ifs <;> omega

/-- C5 witness. -/
theorem c5_clamp_witness :
    (2 ≤ (4 : ℤ)) ∧
    clamp_gain_index (2 + 1) 4 = max 1 (min (2 + 1) (4 - 1)) ∧
    (1 ≤ clamp_gain_index (-7) 4) ∧
    clamp_gain_index (1 + -1) 4 = 1 :=
  ⟨by decide, (c5_clamp 4 (by decide)).1 2 1, (c5_clamp 4 (by decide)).2.1 (-7),
   (c5_clamp 4 (by decide)).2.2⟩

/-- C6: on a wake, the hardware gain-set call is issued exactly when the
clamped new index differs from the current one; the resulting state does
not depend on whether the hardware call succeeds, and when the call is
issued the index is updated to the new value regardless of the outcome. -/
theorem actuator_iteration_eq (gains : ℤ → ℤ) (gain_count sel : ℤ) (ok : Bool)
    (s : ActuatorState) (hsel : 0 < sel) :
    actuator_iteration gains gain_count sel ok s =
      if clamp_gain_index (s.gain_index + (gain_decision s.pid_somme).2) gain_count =
          s.gain_index then
        ({ s with pid_somme := (gain_decision s.pid_somme).1 }, [])
      else
        ({ gain_index := clamp_gain_index (s.gain_index + (gain_decision s.pid_somme).2)
             gain_count,
           pid_somme := (gain_decision s.pid_somme).1,
           current_gain := gains (clamp_gain_index
             (s.gain_index + (gain_decision s.pid_somme).2) gain_count) },
         [(gains (clamp_gain_index (s.gain_index + (gain_decision s.pid_somme).2)
             gain_count), ok)]) := by
  unfold actuator_iteration
  rw [if_pos hsel]
  dsimp only
  by_cases h : clamp_gain_index (s.gain_index + (gain_decision s.pid_somme).2)
      gain_count = s.gain_index
  · rw [if_neg (by simp [h]), if_pos h]
  · rw [if_pos h, if_neg h]

theorem c6_hw_call (gains : ℤ → ℤ) (gain_count sel : ℤ) (hw_ok : Bool)
    (s : ActuatorState) (hsel : 0 < sel) :
    ((actuator_iteration gains gain_count sel hw_ok s).2 ≠ [] ↔
      clamp_gain_index (s.gain_index + (gain_decision s.pid_somme).2) gain_count ≠
        s.gain_index) ∧
    (∀ ok : Bool, (actuator_iteration gains gain_count sel ok s).1 =
      (actuator_iteration gains gain_count sel hw_ok s).1) ∧
    (clamp_gain_index (s.gain_index + (gain_decision s.pid_somme).2) gain_count ≠
        s.gain_index →
      (actuator_iteration gains gain_count sel hw_ok s).1.gain_index =
        clamp_gain_index (s.gain_index + (gain_decision s.pid_somme).2) gain_count ∧
      (actuator_iteration gains gain_count sel hw_ok s).2 =
        [(gains (clamp_gain_index (s.gain_index + (gain_decision s.pid_somme).2)
          gain_count), hw_ok)]) := by
  have he := fun (ok : Bool) => actuator_iteration_eq gains gain_count sel ok s hsel
  by_cases h : clamp_gain_index (s.gain_index + (gain_decision s.pid_somme).2)
      gain_count = s.gain_index
  · refine ⟨by simp [he hw_ok, if_pos h, h], fun ok => ?_, fun hne => absurd h hne⟩
    rw [he ok, he hw_ok, if_pos h, if_pos h]
  · refine ⟨by simp [he hw_ok, if_neg h, h], fun ok => ?_, fun _ => ?_⟩
    · rw [he ok, he hw_ok, if_neg h, if_neg h]
    · rw [he hw_ok, if_neg h]
      exact ⟨rfl, rfl⟩

/-- C6 witness. -/
theorem c6_hw_call_witness :
    (0 < (1 : ℤ)) ∧
    ((actuator_iteration (fun x => 10 * x) 5 1 false ⟨2, 400, 0⟩).2 ≠ [] ↔
      clamp_gain_index ((2 : ℤ) + (gain_decision 400).2) 5 ≠ 2) :=
  ⟨by decide, (c6_hw_call (fun x => 10 * x) 5 1 false ⟨2, 400, 0⟩ (by decide)).1⟩

/-- C7: a single wake decides at most one step: the two threshold
branches never both fire, so the decided step is -1, 0 or 1; and when
the gain table has at least two entries, an index inside [1, count - 1]
stays inside that range and moves by at most one per wake. -/
theorem c7_single_step (gains : ℤ → ℤ) (gain_count sel : ℤ) (hw_ok : Bool)
    (s : ActuatorState) (hgc : 2 ≤ gain_count)
    (hlo : 1 ≤ s.gain_index) (hhi : s.gain_index ≤ gain_count - 1) :
    ((gain_decision s.pid_somme).2 = -1 ∨ (gain_decision s.pid_somme).2 = 0 ∨
      (gain_decision s.pid_somme).2 = 1) ∧
    1 ≤ (actuator_iteration gains gain_count sel hw_ok s).1.gain_index ∧
    (actuator_iteration gains gain_count sel hw_ok s).1.gain_index ≤ gain_count - 1 ∧
    (actuator_iteration gains gain_count sel hw_ok s).1.gain_index - s.gain_index ≤ 1 ∧
    s.gain_index - (actuator_iteration gains gain_count sel hw_ok s).1.gain_index ≤ 1 := by
  have hstep : (gain_decision s.pid_somme).2 = -1 ∨ (gain_decision s.pid_somme).2 = 0 ∨
      (gain_decision s.pid_somme).2 = 1 := by
    rw [gain_decision_eq]
    split_ifs <;> simp
  refine ⟨hstep, ?_⟩
  by_cases hs : 0 < sel
  · rw [actuator_iteration_eq gains gain_count sel hw_ok s hs]
    by_cases h : clamp_gain_index (s.gain_index + (gain_decision s.pid_somme).2)
        gain_count = s.gain_index
    · rw [if_pos h]
      dsimp only
      exact ⟨hlo, hhi, by omega, by omega⟩
    · rw [if_neg h]
      dsimp only
      unfold clamp_gain_index
      rcases hstep with hst | hst | hst <;> rw [hst] <;> split_ifs <;> omega
  · unfold actuator_iteration
    rw [if_neg hs]
    dsimp only
    exact ⟨hlo, hhi, by omega, by omega⟩

/-- C7 witness. -/
theorem c7_single_step_witness :
    (2 ≤ (5 : ℤ)) ∧ (1 ≤ (2 : ℤ)) ∧ ((2 : ℤ) ≤ 5 - 1) ∧
    (((gain_decision (400 : ℤ)).2 = -1 ∨ (gain_decision (400 : ℤ)).2 = 0 ∨
       (gain_decision (400 : ℤ)).2 = 1) ∧
     1 ≤ (actuator_iteration (fun x => 10 * x) 5 1 true ⟨2, 400, 0⟩).1.gain_index ∧
     (actuator_iteration (fun x => 10 * x) 5 1 true ⟨2, 400, 0⟩).1.gain_index ≤ 5 - 1 ∧
     (actuator_iteration (fun x => 10 * x) 5 1 true ⟨2, 400, 0⟩).1.gain_index - 2 ≤ 1 ∧
     (2 : ℤ) - (actuator_iteration (fun x => 10 * x) 5 1 true ⟨2, 400, 0⟩).1.gain_index ≤ 1) :=
  ⟨by decide, by decide, by decide,
   c7_single_step (fun x => 10 * x) 5 1 true ⟨2, 400, 0⟩ (by decide) (by decide) (by decide)⟩

/-- C8: the do/while loop of the actuator runs pass m exactly when every
earlier end-of-pass check saw do_exit clear; hence once a check observes
do_exit set, no later pass (and so no further timed wait) ever runs, and
this holds even if the wake signal is never posted, because the check
does not depend on the select result. -/
theorem c8_termination :
    (∀ do_exit_obs : ℕ → Bool, ∀ m : ℕ,
      actuator_runs do_exit_obs m = true ↔ ∀ k, k < m → do_exit_obs k = false) ∧
    (∀ do_exit_obs : ℕ → Bool, ∀ n m : ℕ, do_exit_obs n = true → n < m →
      actuator_runs do_exit_obs m = false) := by
  have hchar : ∀ do_exit_obs : ℕ → Bool, ∀ m : ℕ,
      actuator_runs do_exit_obs m = true ↔ ∀ k, k < m → do_exit_obs k = false := by
    intro σ m
    induction m with
    | zero => simp [actuator_runs]
    | succ m ih =>
      simp only [actuator_runs, Bool.and_eq_true, Bool.not_eq_true', ih]
      constructor
      · rintro ⟨hall, hm⟩ k hk
        rcases Nat.lt_succ_iff_lt_or_eq.mp hk with hk | hk
        · exact hall k hk
        · rw [hk]; exact hm
      · intro hall
        exact ⟨fun k hk => hall k (by omega), hall m (by omega)⟩
  refine ⟨hchar, fun σ n m hn hnm => ?_⟩
  cases hr : actuator_runs σ m with
  | false => rfl
  | true => exact absurd hn (by simp [(hchar σ m).mp hr n hnm])

/-- C8 witness: with do_exit observed set at the end of pass 0, pass 1
never runs. -/
theorem c8_termination_witness :
    ((fun _ : ℕ => true) 0 = true) ∧ (0 < 1) ∧
    actuator_runs (fun _ => true) 1 = false :=
  ⟨by decide, by decide, c8_termination.2 (fun _ => true) 0 1 (by decide) (by decide)⟩

/-- C10: a negative gain argument selects the AGC mode; its start-up
path sets the initial index to gain_count / 2 (integer division), stores
the corresponding table gain as the current gain, and issues exactly one
initial hardware gain-set call with that value before streaming. -/
theorem c10_initial_gain (gains : ℤ → ℤ) (gain_count samp_rate gain : ℤ)
    (h : gain < 0) :
    select_gain_mode gain = GainMode.agc ∧
    (agc_mode_setup gains gain_count gain samp_rate).gain_index = gain_count / 2 ∧
    (agc_mode_setup gains gain_count gain samp_rate).current_gain =
      gains (gain_count / 2) ∧
    (agc_mode_setup gains gain_count gain samp_rate).hw_calls =
      [gains (gain_count / 2)] ∧
    (agc_mode_setup gains gain_count gain samp_rate).target_dbfs = gain ∧
    (agc_mode_setup gains gain_count gain samp_rate).sample_index = samp_rate / 5 := by
  refine ⟨?_, rfl, rfl, rfl, rfl, rfl⟩
  unfold select_gain_mode
  rw [if_neg (by omega), if_neg (by omega)]

/-- C10 witness. -/
theorem c10_initial_gain_witness :
    ((-240 : ℤ) < 0) ∧
    (select_gain_mode (-240) = GainMode.agc ∧
     (agc_mode_setup (fun x => x) 29 (-240) 2048000).gain_index = 29 / 2 ∧
     (agc_mode_setup (fun x => x) 29 (-240) 2048000).current_gain = (fun x : ℤ => x) (29 / 2) ∧
     (agc_mode_setup (fun x => x) 29 (-240) 2048000).hw_calls = [(fun x : ℤ => x) (29 / 2)] ∧
     (agc_mode_setup (fun x => x) 29 (-240) 2048000).target_dbfs = -240 ∧
     (agc_mode_setup (fun x => x) 29 (-240) 2048000).sample_index = 2048000 / 5) :=
  ⟨by decide, c10_initial_gain (fun x => x) 29 2048000 (-240) (by decide)⟩

/-! ## Claim theorems: lookup table -/

/-- C3 (counterexample): at the byte pair (160, 128) the magnitude is 4
and 100 * ln(4 / 16384) = -831.776...; the C assignment to int truncates
toward zero and stores -831, while the round the claim specifies gives
-832, so the stored entry differs from round(100 * ln(m / 16384.0)). -/
theorem c3_counterexample :
    dbfs_entry 160 128 = -831 ∧ dbfs_entry_spec 160 128 = -832 ∧
    dbfs_entry 160 128 ≠ dbfs_entry_spec 160 128 := by
  have hL1 := Real.log_two_gt_d9
  have hL2 := Real.log_two_lt_d9
  have hmag : dbfs_mag 160 128 = 4 := by decide
  have harg : ((dbfs_mag 160 128 : ℤ) : ℝ) / 16384 = 1 / 4096 := by
    rw [hmag]
    norm_num
  have hlog : Real.log ((1 : ℝ) / 4096) = -(12 * Real.log 2) := by
    rw [one_div, Real.log_inv]
    rw [show (4096 : ℝ) = 2 ^ (12 : ℕ) by norm_num, Real.log_pow]
    push_cast
    ring
  have hx : 100 * Real.log ((dbfs_mag 160 128 : ℤ) / 16384 : ℝ) =
      -(1200 * Real.log 2) := by
    rw [harg, hlog]
    ring
  have hentry : dbfs_entry 160 128 = -831 := by
    unfold dbfs_entry
    rw [if_pos (by decide)]
    unfold ctrunc
    rw [hx, if_neg (by linarith)]
    rw [Int.ceil_eq_iff]
    push_cast
    constructor <;> linarith
  have hspec : dbfs_entry_spec 160 128 = -832 := by
    unfold dbfs_entry_spec
    rw [if_neg (by decide)]
    rw [hx, round_eq, Int.floor_eq_iff]
    push_cast
    constructor <;> linarith
  exact ⟨hentry, hspec, by rw [hentry, hspec]; decide⟩

/-- C3 (amended): the build is a pure deterministic function of the byte
pair; the magnitude vanishes exactly at the center pair (158, 128),
where the sentinel minimum is stored; every other entry is the
truncation toward zero (the C float-to-int conversion) of
100 * ln(m / 16384.0), not the rounding the claim states. -/
theorem c3_truncated_table (i q : ℕ) (hi : i < 256) (hq : q < 256) :
    (dbfs_mag i q = 0 ↔ i = 158 ∧ q = 128) ∧
    (dbfs_mag i q = 0 → dbfs_entry i q = DBFS_MIN) ∧
    (dbfs_mag i q ≠ 0 →
      dbfs_entry i q = ctrunc (100 * Real.log ((dbfs_mag i q : ℤ) / 16384 : ℝ))) := by
  have ha : (0 : ℤ) ≤ ((i : ℤ) - 158) * ((i : ℤ) - 158) := mul_self_nonneg _
  have hb : (0 : ℤ) ≤ ((q : ℤ) - 128) * ((q : ℤ) - 128) := mul_self_nonneg _
  refine ⟨⟨fun h => ?_, fun h => ?_⟩, fun h => ?_, fun h => ?_⟩
  · unfold dbfs_mag at h
    have ha0 : ((i : ℤ) - 158) * ((i : ℤ) - 158) = 0 := by linarith
    have hb0 : ((q : ℤ) - 128) * ((q : ℤ) - 128) = 0 := by linarith
    have hi0 := mul_self_eq_zero.mp ha0
    have hq0 := mul_self_eq_zero.mp hb0
    constructor <;> omega
  · rcases h with ⟨h1, h2⟩
    subst h1
    subst h2
    decide
  · unfold dbfs_entry
    rw [if_neg (by rw [h]; decide)]
  · have hpos : 0 < dbfs_mag i q := by
      have hge : 0 ≤ dbfs_mag i q := add_nonneg ha hb
      omega
    unfold dbfs_entry
    rw [if_pos hpos]

/-- C3 witness. -/
theorem c3_truncated_table_witness :
    (160 < 256) ∧ (128 < 256) ∧
    ((dbfs_mag 160 128 = 0 ↔ 160 = 158 ∧ 128 = 128) ∧
     (dbfs_mag 160 128 = 0 → dbfs_entry 160 128 = DBFS_MIN) ∧
     (dbfs_mag 160 128 ≠ 0 →
       dbfs_entry 160 128 = ctrunc (100 * Real.log ((dbfs_mag 160 128 : ℤ) / 16384 : ℝ)))) :=
  ⟨by decide, by decide, c3_truncated_table 160 128 (by decide) (by decide)⟩
